import Mathlib

/-!
Verification of the NLMS echo-cancellation core against its design document.

The development shallowly embeds the TypeScript/JavaScript sources:

* `NLMS`            — `NLMSProcessor` (nlms-processor module): leaky NLMS
                      adaptive filter, per-sample loop.
* `NLMSE`           — the same `NLMSProcessor.process`, with samples modelled
                      as `Option ℚ` so that IEEE NaN propagation through the
                      branch-free arithmetic can be examined (`none` = NaN).
* `DTD`             — `DoubleTalkDetector` (double-talk-detector module).
* `CircularBuffer`  — the circular-buffer module.
* `RTP`             — `RealTimeProcessor.estimateDelay` and
                      `applyResidualSuppression` (demo/real-time-processor.ts).
* `Worklet`         — `EchoCancellationProcessor.processSample` (the
                      AudioWorklet processor).
* `ECSystem`        — `EchoCancellationSystem.processBlock` (main.ts).

Machine floats (f32/f64) are modelled as exact rationals; decimal literals of
the source become the corresponding exact rational literals.  `Math.sqrt`,
which occurs only in the double-talk correlation, is modelled by `Rat.sqrt`
(the rational square root of numerator and denominator); every theorem below
evaluates it only at perfect-square rationals (including 0), where it agrees
exactly with the real square root.
-/

namespace AEC

/-- JavaScript Math.sign restricted to (finite) numbers. -/
def jsSign (q : ℚ) : ℚ :=
  if q > 0 then 1 else if q < 0 then -1 else 0

namespace NLMS

/-- `NLMSConfig` of the source (filterLength, stepSize μ, regularization δ,
leakageFactor λ). -/
structure Config where
  filterLength : Nat
  stepSize : ℚ
  regularization : ℚ
  leakageFactor : ℚ

/-- Default configuration of the `NLMSProcessor` constructor. -/
def defaultConfig : Config :=
  { filterLength := 512, stepSize := 0.1, regularization := 1e-6,
    leakageFactor := 0.99999 }

/-- Mutable state of `NLMSProcessor`: adaptive weights, the reference delay
line, the smoothed input power estimate and the circular write index.
(The Date-based metrics fields `echoReturnLoss`, `convergenceTime`,
`lastUpdateTime` are reporting-only and affect neither output nor filter
state; they are not modelled.) -/
structure State where
  weights : List ℚ
  delayLine : List ℚ
  powerEstimate : ℚ
  writeIndex : Nat

/-- `initializeFilter` / the state right after construction: zero weights,
zero delay line, powerEstimate 1e-6, writeIndex 0. -/
def Config.initState (cfg : Config) : State :=
  { weights := List.replicate cfg.filterLength 0,
    delayLine := List.replicate cfg.filterLength 0,
    powerEstimate := 1e-6,
    writeIndex := 0 }

/-- `calculateFilterOutput`: y = Σ_i w[i] · delayLine[(writeIndex − i + L) % L].
(The in-bounds JS index `writeIndex - i + L` is written `writeIndex + L - i`
so that truncating Nat subtraction cannot occur; the values agree since
`i ≤ L`.) -/
def calculateFilterOutput (cfg : Config) (s : State) : ℚ :=
  (List.range cfg.filterLength).foldl
    (fun output i =>
      output + s.weights.getD i 0 *
        s.delayLine.getD ((s.writeIndex + cfg.filterLength - i) % cfg.filterLength) 0)
    0

/-- `updateWeights`: power estimate update with the hard-coded 0.95/0.05
smoothing, normalized step size μ / (p·L + δ), and the leaky weight update
w[i] ← λ·w[i] + μ̃·e·x[i]. -/
def updateWeights (cfg : Config) (s : State) (errorSignal : ℚ) : State :=
  let currentSample := s.delayLine.getD s.writeIndex 0
  let powerEstimate := 0.95 * s.powerEstimate + 0.05 * currentSample * currentSample
  let normalizedStepSize :=
    cfg.stepSize / (powerEstimate * (cfg.filterLength : ℚ) + cfg.regularization)
  let weights := (List.range cfg.filterLength).map (fun i =>
    let refSample :=
      s.delayLine.getD ((s.writeIndex + cfg.filterLength - i) % cfg.filterLength) 0
    cfg.leakageFactor * s.weights.getD i 0 +
      normalizedStepSize * errorSignal * refSample)
  { s with weights := weights, powerEstimate := powerEstimate }

/-- One iteration of the loop body of `process`: write the reference sample,
compute the filter output and the error, optionally adapt, advance the write
index.  Returns the new state and the emitted (error) sample. -/
def step (cfg : Config) (s : State) (refSample micSample : ℚ)
    (enableAdaptation : Bool) : State × ℚ :=
  let s1 : State := { s with delayLine := s.delayLine.set s.writeIndex refSample }
  let estimatedEcho := calculateFilterOutput cfg s1
  let errorSignal := micSample - estimatedEcho
  let s2 : State := if enableAdaptation then updateWeights cfg s1 errorSignal else s1
  let s3 : State := { s2 with writeIndex := (s2.writeIndex + 1) % cfg.filterLength }
  (s3, errorSignal)

/-- `process`, block loop.  The source iterates i over
`referenceSignal.length` indexing both arrays; blocks passed to it always
have equal length, so simultaneous structural recursion is faithful. -/
def processGo (cfg : Config) (enableAdaptation : Bool) :
    State → List ℚ → List ℚ → State × List ℚ
  | s, r :: rs, m :: ms =>
    let p := step cfg s r m enableAdaptation
    let rest := processGo cfg enableAdaptation p.1 rs ms
    (rest.1, p.2 :: rest.2)
  | s, _, _ => (s, [])

/-- `NLMSProcessor.process(referenceSignal, microphoneSignal, enableAdaptation)`. -/
def process (cfg : Config) (s : State) (referenceSignal microphoneSignal : List ℚ)
    (enableAdaptation : Bool) : State × List ℚ :=
  processGo cfg enableAdaptation s referenceSignal microphoneSignal

/-- T consecutive calls of `process`, one per block, with a fixed adaptation
flag: the filter state after a run of blocks. -/
def runBlocks (cfg : Config) (s : State) (blocks : List (List ℚ × List ℚ))
    (enableAdaptation : Bool) : State :=
  blocks.foldl (fun st b => (process cfg st b.1 b.2 enableAdaptation).1) s

end NLMS

/-- Squared Euclidean norm of a weight vector. -/
def l2normSq (l : List ℚ) : ℚ := (l.map (fun x => x * x)).sum

namespace DTD

/-- `TalkState` of the double-talk detector. -/
inductive TalkState where
  | idle
  | single_talk
  | double_talk
  | hold
deriving DecidableEq, Repr

/-- `DoubleTalkConfig`. -/
structure Config where
  powerRatioThreshold : ℚ
  correlationThreshold : ℚ
  hangoverTime : Int
  windowSize : Nat

/-- Defaults of the `DoubleTalkDetector` constructor. -/
def defaultConfig : Config :=
  { powerRatioThreshold := 2.0, correlationThreshold := 0.6,
    hangoverTime := 2400, windowSize := 512 }

/-- Mutable state of `DoubleTalkDetector` (the reporting-only
`detectionAccuracy` field is not modelled). -/
structure State where
  state : TalkState
  hangoverCounter : Int
  nearEndPower : ℚ
  farEndPower : ℚ
  crossPower : ℚ
  nearEndBuffer : List ℚ
  farEndBuffer : List ℚ
  bufferIndex : Nat

/-- State right after construction / `initializeBuffers`. -/
def Config.initState (cfg : Config) : State :=
  { state := TalkState.idle, hangoverCounter := 0,
    nearEndPower := 1e-10, farEndPower := 1e-10, crossPower := 1e-10,
    nearEndBuffer := List.replicate cfg.windowSize 0,
    farEndBuffer := List.replicate cfg.windowSize 0,
    bufferIndex := 0 }

/-- `updatePowerEstimates`: block powers normalized by the block lengths and
exponentially smoothed with α = 0.95. -/
def updatePowerEstimates (s : State) (nearEnd farEnd : List ℚ) : State :=
  let alpha : ℚ := 0.95
  let nearPower := (List.range nearEnd.length).foldl
    (fun acc i => acc + nearEnd.getD i 0 * nearEnd.getD i 0) 0
  let farPower := (List.range nearEnd.length).foldl
    (fun acc i => acc + farEnd.getD i 0 * farEnd.getD i 0) 0
  let crossPower := (List.range nearEnd.length).foldl
    (fun acc i => acc + nearEnd.getD i 0 * farEnd.getD i 0) 0
  let nearPower := nearPower / (nearEnd.length : ℚ)
  let farPower := farPower / (farEnd.length : ℚ)
  let crossPower := crossPower / (nearEnd.length : ℚ)
  { s with
    nearEndPower := alpha * s.nearEndPower + (1 - alpha) * nearPower,
    farEndPower := alpha * s.farEndPower + (1 - alpha) * farPower,
    crossPower := alpha * s.crossPower + (1 - alpha) * crossPower }

/-- `updateCorrelationBuffers`: write the block into the circular analysis
windows. -/
def updateCorrelationBuffers (cfg : Config) (s : State)
    (nearEnd farEnd : List ℚ) : State :=
  (List.range nearEnd.length).foldl
    (fun st i =>
      { st with
        nearEndBuffer := st.nearEndBuffer.set st.bufferIndex (nearEnd.getD i 0),
        farEndBuffer := st.farEndBuffer.set st.bufferIndex (farEnd.getD i 0),
        bufferIndex := (st.bufferIndex + 1) % cfg.windowSize })
    s

/-- `calculateCorrelation`: zero-mean normalized cross-correlation over the
analysis window; 0 when the variance product is (near) degenerate. -/
def calculateCorrelation (cfg : Config) (s : State) : ℚ :=
  let sums := (List.range cfg.windowSize).foldl
    (fun (acc : ℚ × ℚ × ℚ × ℚ × ℚ) i =>
      let nearSample := s.nearEndBuffer.getD i 0
      let farSample := s.farEndBuffer.getD i 0
      (acc.1 + nearSample * farSample,
       acc.2.1 + nearSample,
       acc.2.2.1 + farSample,
       acc.2.2.2.1 + nearSample * nearSample,
       acc.2.2.2.2 + farSample * farSample))
    (0, 0, 0, 0, 0)
  let correlation := sums.1
  let nearSum := sums.2.1
  let farSum := sums.2.2.1
  let nearSumSq := sums.2.2.2.1
  let farSumSq := sums.2.2.2.2
  let nearMean := nearSum / (cfg.windowSize : ℚ)
  let farMean := farSum / (cfg.windowSize : ℚ)
  let nearVar := nearSumSq / (cfg.windowSize : ℚ) - nearMean * nearMean
  let farVar := farSumSq / (cfg.windowSize : ℚ) - farMean * farMean
  let denominator := Rat.sqrt (nearVar * farVar)
  if denominator > 1e-10 then
    (correlation / (cfg.windowSize : ℚ) - nearMean * farMean) / denominator
  else 0

/-- `detectDoubleTalk`: Geigel power-ratio test OR-ed with the correlation
test. -/
def detectDoubleTalk (cfg : Config) (s : State) : Bool :=
  let powerRat := s.nearEndPower / (s.farEndPower + 1e-10)
  let powerTest : Bool := decide (powerRat > cfg.powerRatioThreshold)
  let correlation := calculateCorrelation cfg s
  let correlationTest : Bool := decide (|correlation| < cfg.correlationThreshold)
  powerTest || correlationTest

/-- `updateState`: the four-state machine with hangover.  Note that in the
HOLD branch the counter is decremented by exactly one per call (one call per
block), before the `<= 0` check. -/
def updateState (cfg : Config) (s : State) (isDoubleTalk : Bool) : State :=
  match s.state with
  | TalkState.idle =>
      if s.farEndPower > 1e-6 then
        { s with state := if isDoubleTalk then TalkState.double_talk
                          else TalkState.single_talk }
      else s
  | TalkState.single_talk =>
      if isDoubleTalk then
        { s with state := TalkState.double_talk,
                 hangoverCounter := cfg.hangoverTime }
      else if s.farEndPower < 1e-7 then
        { s with state := TalkState.idle }
      else s
  | TalkState.double_talk =>
      if !isDoubleTalk then
        { s with state := TalkState.hold,
                 hangoverCounter := cfg.hangoverTime }
      else s
  | TalkState.hold =>
      let h := s.hangoverCounter - 1
      if h ≤ 0 then
        { s with hangoverCounter := h,
                 state := if s.farEndPower > 1e-7 then TalkState.single_talk
                          else TalkState.idle }
      else if isDoubleTalk then
        { s with hangoverCounter := h, state := TalkState.double_talk }
      else
        { s with hangoverCounter := h }

/-- `DoubleTalkDetector.process`: one call per block; returns the new state
and whether adaptation should be enabled (state ∉ {double_talk, hold}).
(The errorSignal argument of the source is unused by it.) -/
def process (cfg : Config) (s : State) (nearEndSignal farEndSignal : List ℚ) :
    State × Bool :=
  let s1 := updatePowerEstimates s nearEndSignal farEndSignal
  let s2 := updateCorrelationBuffers cfg s1 nearEndSignal farEndSignal
  let isDoubleTalk := detectDoubleTalk cfg s2
  let s3 := updateState cfg s2 isDoubleTalk
  (s3, decide (s3.state ≠ TalkState.double_talk) && decide (s3.state ≠ TalkState.hold))

/-- Iterated `updateState` with a fixed double-talk decision: the state after
n consecutive blocks. -/
def iterUpdateState (cfg : Config) (isDoubleTalk : Bool) : Nat → State → State
  | 0, s => s
  | n + 1, s => iterUpdateState cfg isDoubleTalk n (updateState cfg s isDoubleTalk)

end DTD

namespace CB

/-- State of `CircularBuffer`: backing storage, write/read indices and the
(power-of-two) size.  The JS index expressions `x & this.mask` with
`mask = size - 1` are written `x % size` (`Int.emod` for the possibly
negative read index): for a power-of-two size within the 32-bit range these
agree with the JS bitmask arithmetic. -/
structure CircularBuffer where
  buffer : List ℚ
  writeIndex : Nat
  readIndex : Nat
  size : Nat

/-- `nextPowerOfTwo`: smallest power of two that is ≥ n (starting from 1 and
doubling, as in the source constructor). -/
def nextPowerOfTwoAux (n : Nat) (power : Nat) (hp : 0 < power) : Nat :=
  if h : power < n then nextPowerOfTwoAux n (power * 2) (by omega) else power
termination_by n - power
decreasing_by omega

def nextPowerOfTwo (n : Nat) : Nat := nextPowerOfTwoAux n 1 (by omega)

/-- The `CircularBuffer` constructor. -/
def mkBuffer (size : Nat) : CircularBuffer :=
  let sz := nextPowerOfTwo size
  { buffer := List.replicate sz 0, writeIndex := 0, readIndex := 0, size := sz }

/-- `write`: store at the write index, advance it (mod size). -/
def write (b : CircularBuffer) (sample : ℚ) : CircularBuffer :=
  { b with buffer := b.buffer.set b.writeIndex sample,
           writeIndex := (b.writeIndex + 1) % b.size }

/-- `writeBlock`. -/
def writeBlock (b : CircularBuffer) (samples : List ℚ) : CircularBuffer :=
  samples.foldl write b

/-- `read`: the sample at `(writeIndex - 1 - delay) & mask`. -/
def read (b : CircularBuffer) (delay : Nat) : ℚ :=
  b.buffer.getD (((b.writeIndex : Int) - 1 - (delay : Int)) % (b.size : Int)).toNat 0

/-- `readBlock` into an output of length `len`: output[i] = read (delay + i). -/
def readBlock (b : CircularBuffer) (len : Nat) (delay : Nat) : List ℚ :=
  (List.range len).map (fun i => read b (delay + i))

/-- The structural invariant maintained by the constructor and by `write`:
storage length equals the (positive) size and the write index is in range. -/
def WF (b : CircularBuffer) : Prop :=
  b.buffer.length = b.size ∧ b.writeIndex < b.size ∧ 0 < b.size

end CB

namespace RTP

/-- Inner loop of `RealTimeProcessor.estimateDelay` for a fixed lag: the loop
`for (i = delay; i < mic.length && i - delay < sys.length; i++)` runs over
`i ∈ [delay, min (mic.length, sys.length + delay))`; this returns the raw
correlation sum together with `count`. -/
def corrAt (mic sys : List ℚ) (delay : Nat) : ℚ × Nat :=
  let upper := min mic.length (sys.length + delay)
  let count := upper - delay
  (((List.range count).foldl
      (fun acc j => acc + mic.getD (delay + j) 0 * sys.getD j 0) 0),
   count)

/-- One iteration of the outer loop of `estimateDelay` for one candidate
lag: if `count > 0`, normalize the correlation by the count and keep it
(with its lag) when its magnitude strictly exceeds the best so far. -/
def delayFoldStep (mic sys : List ℚ) (acc : ℚ × Nat) (delay : Nat) : ℚ × Nat :=
  let c := corrAt mic sys delay
  if 0 < c.2 then
    let correlation := c.1 / (c.2 : ℚ)
    if |correlation| > |acc.1| then (correlation, delay) else acc
  else acc

/-- `RealTimeProcessor.estimateDelay`: lags 0 ≤ delay < min(480, ⌊len/2⌋),
each correlation divided by its count, best (strictly) larger absolute
correlation wins (`delayFoldStep`), then EMA smoothing with α = 0.1; returns
the updated smoothed estimate together with `Math.round` of it (the exposed
value). -/
def estimateDelay (mic sys : List ℚ) (estimatedDelay : ℚ) : ℚ × Int :=
  let maxDelay := min 480 (mic.length / 2)
  let best := (List.range maxDelay).foldl (delayFoldStep mic sys) (0, 0)
  let alpha : ℚ := 0.1
  let newEstimate := estimatedDelay * (1 - alpha) + (best.2 : ℚ) * alpha
  (newEstimate, round newEstimate)

/-- Modelled from the spec wording: r(k) = Σ_i mic[i]·ref[i−k] with its
count of products (count(k) = mic.length − k), giving the ranking value
|r(k)|/count(k); lags with count 0 get value 0 (division by zero in ℚ). -/
def specCorrValue (mic sys : List ℚ) (k : Nat) : ℚ :=
  |((List.range (mic.length - k)).foldl
      (fun acc j => acc + mic.getD (k + j) 0 * sys.getD j 0) 0)| /
    ((mic.length - k : Nat) : ℚ)

/-- Modelled from the spec wording of the delay estimator, for comparison
with `estimateDelay`: the lag search runs over the full range k ∈ [0, 480]
(inclusive), k* is the (first) argmax of |r(k)|/count(k), then EMA smoothing
with α = 0.1 and exposed value round(d̂). -/
def specDelayEstimate (mic sys : List ℚ) (estimatedDelay : ℚ) : Int :=
  let kstar := (List.range 481).foldl
    (fun (acc : ℚ × Nat) k =>
      if specCorrValue mic sys k > acc.1 then (specCorrValue mic sys k, k) else acc)
    (0, 0)
  round (estimatedDelay * (1 - 0.1) + (kstar.2 : ℚ) * 0.1)

/-- The value |r(k)|/count(k) that the delay search ranks lags by. -/
def corrValue (mic sys : List ℚ) (k : Nat) : ℚ :=
  |(corrAt mic sys k).1 / ((corrAt mic sys k).2 : ℚ)|

/-- k is the first argmax of |r|/count among the lags 0 ≤ j < n. -/
def IsFirstArgmaxCorr (mic sys : List ℚ) (n k : Nat) : Prop :=
  k < n ∧ (∀ j, j < n → corrValue mic sys j ≤ corrValue mic sys k) ∧
    ∀ j, j < k → corrValue mic sys j < corrValue mic sys k

/-- `RealTimeProcessor.applyResidualSuppression`: 10 % attenuation exactly on
the samples where the aligned reference magnitude exceeds 1e-3. -/
def applyResidualSuppression (signal reference : List ℚ) : List ℚ :=
  let suppressionFactor : ℚ := 0.1
  (List.range signal.length).map (fun i =>
    let refLevel := |reference.getD i 0|
    let suppression := if refLevel > 0.001 then suppressionFactor else 0
    signal.getD i 0 * (1 - suppression))

end RTP

namespace Worklet

/-- State of the AudioWorklet `EchoCancellationProcessor` relevant to
`processSample` (the reporting-only ERLE accumulators `erleSum`/`erleCount`,
whose update uses `Math.log10` and affects no output or filter state, are not
modelled). -/
structure State where
  microphoneBuffer : List ℚ
  systemAudioBuffer : List ℚ
  bufferIndex : Nat
  filterLength : Nat
  adaptiveFilter : List ℚ
  stepSize : ℚ
  regularization : ℚ
  micPowerHistory : List ℚ
  echoPowerHistory : List ℚ
  powerIndex : Nat
  doubleTalkThreshold : ℚ

/-- Worklet state right after construction. -/
def initState : State :=
  { microphoneBuffer := List.replicate 8192 0,
    systemAudioBuffer := List.replicate 8192 0,
    bufferIndex := 0,
    filterLength := 512,
    adaptiveFilter := List.replicate 512 0,
    stepSize := 0.1,
    regularization := 1e-6,
    micPowerHistory := List.replicate 64 0,
    echoPowerHistory := List.replicate 64 0,
    powerIndex := 0,
    doubleTalkThreshold := 0.5 }

/-- `EchoCancellationProcessor.processSample`.  The in-bounds JS index
`bufferIndex - i + len` is written `bufferIndex + len - i` (Nat subtraction).
Returns the new state and the emitted output sample. -/
def processSample (s : State) (micSample systemSample : ℚ) : State × ℚ :=
  let bufLen := s.systemAudioBuffer.length
  let referenceVector := (List.range s.filterLength).map (fun i =>
    s.systemAudioBuffer.getD ((s.bufferIndex + bufLen - i) % bufLen) 0)
  let estimatedEcho := (List.range s.filterLength).foldl
    (fun acc i => acc + s.adaptiveFilter.getD i 0 * referenceVector.getD i 0) 0
  let errorSignal := micSample - estimatedEcho
  let micPower := micSample * micSample
  let echoPower := estimatedEcho * estimatedEcho
  let systemPower := systemSample * systemSample
  let s1 : State :=
    { s with micPowerHistory := s.micPowerHistory.set s.powerIndex micPower,
             echoPowerHistory := s.echoPowerHistory.set s.powerIndex echoPower,
             powerIndex := (s.powerIndex + 1) % s.micPowerHistory.length }
  let avgMicPower := ((List.range s1.micPowerHistory.length).foldl
    (fun acc i => acc + s1.micPowerHistory.getD i 0) 0) / (s1.micPowerHistory.length : ℚ)
  let avgEchoPower := ((List.range s1.micPowerHistory.length).foldl
    (fun acc i => acc + s1.echoPowerHistory.getD i 0) 0) / (s1.echoPowerHistory.length : ℚ)
  let isDoubleTalk : Bool :=
    decide (avgMicPower > s1.doubleTalkThreshold * (avgEchoPower + systemPower + 1e-10))
  let s2 : State :=
    if !isDoubleTalk && decide (systemPower > 1e-6) then
      let refPower := ((List.range s1.filterLength).foldl
        (fun acc i => acc + referenceVector.getD i 0 * referenceVector.getD i 0) 0) +
        s1.regularization
      let normalizedStepSize := s1.stepSize / refPower
      { s1 with adaptiveFilter := (List.range s1.filterLength).map (fun i =>
          (s1.adaptiveFilter.getD i 0 +
            normalizedStepSize * errorSignal * referenceVector.getD i 0) * 0.9999) }
    else s1
  let processedSignal := errorSignal
  let noiseFloor : ℚ := 0.001
  let processedSignal :=
    if |processedSignal| < noiseFloor ∧ systemPower > 1e-6 then
      processedSignal * 0.1
    else processedSignal
  let maxAmplitude : ℚ := 0.95
  let processedSignal :=
    if |processedSignal| > maxAmplitude then jsSign processedSignal * maxAmplitude
    else processedSignal
  (s2, processedSignal)

end Worklet

namespace ECS

/-- `EchoCancellationSystem` owns one `NLMSProcessor` and one
`DoubleTalkDetector`. -/
structure State where
  nlms : NLMS.State
  dtd : DTD.State

/-- `EchoCancellationSystem.processBlock(microphoneData, systemAudioData)`:
the detector decides `enableAdaptation` (its errorSignal argument is a fresh
zero block), then the NLMS filter processes the block. -/
def processBlock (ncfg : NLMS.Config) (dcfg : DTD.Config) (s : State)
    (microphoneData systemAudioData : List ℚ) : State × List ℚ :=
  let d := DTD.process dcfg s.dtd microphoneData systemAudioData
  let n := NLMS.process ncfg s.nlms systemAudioData microphoneData d.2
  ({ nlms := n.1, dtd := d.1 }, n.2)

end ECS

namespace NLMSE

/-- NaN-aware sample values: `none` models IEEE NaN, `some q` a finite value.
Arithmetic propagates NaN exactly as IEEE does on the branch-free code of
`NLMSProcessor` (any operation with a NaN operand yields NaN; infinities do
not arise in the runs examined here). -/
def vadd (a b : Option ℚ) : Option ℚ := a.bind (fun x => b.map (fun y => x + y))

def vsub (a b : Option ℚ) : Option ℚ := a.bind (fun x => b.map (fun y => x - y))

def vmul (a b : Option ℚ) : Option ℚ := a.bind (fun x => b.map (fun y => x * y))

def vdiv (a b : Option ℚ) : Option ℚ := a.bind (fun x => b.map (fun y => x / y))

/-- `NLMSProcessor` state with NaN-aware samples; mirrors `NLMS.State`. -/
structure State where
  weights : List (Option ℚ)
  delayLine : List (Option ℚ)
  powerEstimate : Option ℚ
  writeIndex : Nat

/-- Fresh `NLMSProcessor` state (all finite zeros), mirroring
`Config.initState`. -/
def initState (cfg : NLMS.Config) : State :=
  { weights := List.replicate cfg.filterLength (some 0),
    delayLine := List.replicate cfg.filterLength (some 0),
    powerEstimate := some 1e-6,
    writeIndex := 0 }

/-- `calculateFilterOutput` over NaN-aware samples. -/
def calculateFilterOutput (cfg : NLMS.Config) (s : State) : Option ℚ :=
  (List.range cfg.filterLength).foldl
    (fun output i =>
      vadd output (vmul (s.weights.getD i (some 0))
        (s.delayLine.getD ((s.writeIndex + cfg.filterLength - i) % cfg.filterLength)
          (some 0))))
    (some 0)

/-- `updateWeights` over NaN-aware samples. -/
def updateWeights (cfg : NLMS.Config) (s : State) (errorSignal : Option ℚ) : State :=
  let currentSample := s.delayLine.getD s.writeIndex (some 0)
  let powerEstimate :=
    vadd (vmul (some 0.95) s.powerEstimate)
      (vmul (vmul (some 0.05) currentSample) currentSample)
  let normalizedStepSize :=
    vdiv (some cfg.stepSize)
      (vadd (vmul powerEstimate (some (cfg.filterLength : ℚ))) (some cfg.regularization))
  let weights := (List.range cfg.filterLength).map (fun i =>
    let refSample :=
      s.delayLine.getD ((s.writeIndex + cfg.filterLength - i) % cfg.filterLength) (some 0)
    vadd (vmul (some cfg.leakageFactor) (s.weights.getD i (some 0)))
      (vmul (vmul normalizedStepSize errorSignal) refSample))
  { s with weights := weights, powerEstimate := powerEstimate }

/-- Loop body of `process` over NaN-aware samples; mirrors `NLMS.step`. -/
def step (cfg : NLMS.Config) (s : State) (refSample micSample : Option ℚ)
    (enableAdaptation : Bool) : State × Option ℚ :=
  let s1 : State := { s with delayLine := s.delayLine.set s.writeIndex refSample }
  let estimatedEcho := calculateFilterOutput cfg s1
  let errorSignal := vsub micSample estimatedEcho
  let s2 : State := if enableAdaptation then updateWeights cfg s1 errorSignal else s1
  let s3 : State := { s2 with writeIndex := (s2.writeIndex + 1) % cfg.filterLength }
  (s3, errorSignal)

/-- `process` over NaN-aware samples; mirrors `NLMS.process`. -/
def processGo (cfg : NLMS.Config) (enableAdaptation : Bool) :
    State → List (Option ℚ) → List (Option ℚ) → State × List (Option ℚ)
  | s, r :: rs, m :: ms =>
    let p := step cfg s r m enableAdaptation
    let rest := processGo cfg enableAdaptation p.1 rs ms
    (rest.1, p.2 :: rest.2)
  | s, _, _ => (s, [])

def process (cfg : NLMS.Config) (s : State)
    (referenceSignal microphoneSignal : List (Option ℚ))
    (enableAdaptation : Bool) : State × List (Option ℚ) :=
  processGo cfg enableAdaptation s referenceSignal microphoneSignal

end NLMSE

/-! ## Shared helper lemmas -/

lemma getD_map_range {α : Type} (n : Nat) (f : Nat → α) (d : α) (i : Nat)
    (h : i < n) : ((List.range n).map f).getD i d = f i := by
  rw [List.getD_eq_getElem?_getD, List.getElem?_map, List.getElem?_range h]
  rfl

lemma getD_set_ne {α : Type} (l : List α) (i j : Nat) (a d : α) (h : i ≠ j) :
    (l.set i a).getD j d = l.getD j d := by
  rw [List.getD_eq_getElem?_getD, List.getD_eq_getElem?_getD,
    List.getElem?_set_ne h]

lemma getD_set_self {α : Type} (l : List α) (i : Nat) (a d : α)
    (h : i < l.length) : (l.set i a).getD i d = a := by
  rw [List.getD_eq_getElem?_getD, List.getElem?_set_self h]
  rfl

lemma foldl_range_add_sum (n : Nat) (f : Nat → ℚ) (a : ℚ) :
    (List.range n).foldl (fun acc i => acc + f i) a =
      a + ∑ i in Finset.range n, f i := by
  induction n generalizing a with
  | zero => simp
  | succ n ih =>
    rw [List.range_succ, List.foldl_append, ih, Finset.sum_range_succ]
    simp [add_assoc]

/-- The soft limiter maps any (finite) value into [−0.95, 0.95]. -/
lemma abs_softLimit (p : ℚ) :
    |if |p| > (0.95 : ℚ) then jsSign p * 0.95 else p| ≤ 0.95 := by
  unfold jsSign
  split
  · split
    · rw [abs_le]
      constructor <;> norm_num
    · split
      · rw [abs_le]
        constructor <;> norm_num
      · rw [abs_le]
        constructor <;> norm_num
  · simp only [not_lt] at *
    assumption

/-! ## C9: residual suppressor -/

/-- C9: `applyResidualSuppression` preserves the block length and maps each
sample e_n to e_n·(1 − 0.1) exactly when the aligned reference sample
satisfies |ref[n]| > 1e-3, leaving e_n unchanged otherwise. -/
theorem residual_suppression_pointwise (signal reference : List ℚ) (i : Nat)
    (h : i < signal.length) :
    (RTP.applyResidualSuppression signal reference).length = signal.length ∧
    (RTP.applyResidualSuppression signal reference).getD i 0 =
      (if |reference.getD i 0| > 0.001 then signal.getD i 0 * (1 - 0.1)
       else signal.getD i 0) := by
  unfold RTP.applyResidualSuppression
  constructor
  · simp
  · rw [getD_map_range _ _ _ _ h]
    dsimp only
    split_ifs with hc
    · rfl
    · norm_num

/-- Witness for C9 at a concrete input. -/
theorem residual_suppression_pointwise_witness :
    (RTP.applyResidualSuppression [2, 3] [1, 0]).length = 2 ∧
    (RTP.applyResidualSuppression [2, 3] [1, 0]).getD 0 0 =
      (if |([1, 0] : List ℚ).getD 0 0| > 0.001 then
        ([2, 3] : List ℚ).getD 0 0 * (1 - 0.1)
       else ([2, 3] : List ℚ).getD 0 0) := by
  have := residual_suppression_pointwise [2, 3] [1, 0] 0 (by norm_num)
  simpa using this

/-! ## C10: AudioWorklet soft limiter -/

/-- C10: every sample returned by the worklet `processSample` lies in
[−0.95, 0.95]: the post-gate signal is replaced by sign·0.95 whenever its
magnitude exceeds 0.95, so the output never exceeds ±0.95 for any state and
any input. -/
theorem worklet_output_soft_limited (s : Worklet.State)
    (micSample systemSample : ℚ) :
    |(Worklet.processSample s micSample systemSample).2| ≤ 0.95 := by
  simp only [Worklet.processSample]
  exact abs_softLimit _

/-! ## C2: the adapting NLMS sample step -/

/-- C2: each adapting NLMS sample step emits e_n = mic − Σ_i w[i]·x_n[i],
updates the power estimate to p ← (1−β)·p + β·x_n[0]² with β = 0.05
(x_n[0] being the just-written reference sample), and updates every weight to
w[i] ← λ·w[i] + μ̃·e_n·x_n[i] with μ̃ = μ / (p·L + δ) using the updated p. -/
theorem nlms_adapting_step_formulas (cfg : NLMS.Config) (s : NLMS.State)
    (r m : ℚ)
    (hd : s.delayLine.length = cfg.filterLength)
    (hi : s.writeIndex < cfg.filterLength) :
    (NLMS.step cfg s r m true).2 =
      m - ∑ i in Finset.range cfg.filterLength,
        s.weights.getD i 0 *
          (s.delayLine.set s.writeIndex r).getD
            ((s.writeIndex + cfg.filterLength - i) % cfg.filterLength) 0 ∧
    (NLMS.step cfg s r m true).1.powerEstimate =
      (1 - 0.05) * s.powerEstimate + 0.05 * (r * r) ∧
    ∀ i < cfg.filterLength,
      (NLMS.step cfg s r m true).1.weights.getD i 0 =
        cfg.leakageFactor * s.weights.getD i 0 +
          cfg.stepSize /
            (((1 - 0.05) * s.powerEstimate + 0.05 * (r * r)) *
              (cfg.filterLength : ℚ) + cfg.regularization) *
            (NLMS.step cfg s r m true).2 *
            (s.delayLine.set s.writeIndex r).getD
              ((s.writeIndex + cfg.filterLength - i) % cfg.filterLength) 0 := by
  have hcur : (s.delayLine.set s.writeIndex r).getD s.writeIndex 0 = r :=
    getD_set_self _ _ _ _ (by rw [hd]; exact hi)
  refine ⟨?_, ?_, ?_⟩
  · simp only [NLMS.step, if_true]
    rw [NLMS.calculateFilterOutput, foldl_range_add_sum, zero_add]
  · simp only [NLMS.step, if_true, NLMS.updateWeights, hcur]
    ring
  · intro i hiL
    simp only [NLMS.step, if_true, NLMS.updateWeights, hcur]
    rw [getD_map_range _ _ _ _ hiL]
    rw [NLMS.calculateFilterOutput, foldl_range_add_sum, zero_add]
    ring

/-- Witness for C2 at a concrete adapting step (L = 2, default scalar
parameters, a reachable-looking state with the write index at 1). -/
theorem nlms_adapting_step_formulas_witness :
    (([7, 2] : List ℚ).length =
        (⟨2, 0.1, 1e-6, 0.99999⟩ : NLMS.Config).filterLength ∧
      1 < (⟨2, 0.1, 1e-6, 0.99999⟩ : NLMS.Config).filterLength) ∧
    ((NLMS.step ⟨2, 0.1, 1e-6, 0.99999⟩ ⟨[3, 5], [7, 2], 1, 1⟩ 4 6 true).2 =
      6 - ∑ i in Finset.range 2,
        ([3, 5] : List ℚ).getD i 0 *
          (([7, 2] : List ℚ).set 1 4).getD ((1 + 2 - i) % 2) 0 ∧
    (NLMS.step ⟨2, 0.1, 1e-6, 0.99999⟩ ⟨[3, 5], [7, 2], 1, 1⟩ 4 6 true).1.powerEstimate =
      (1 - 0.05) * 1 + 0.05 * ((4 : ℚ) * 4) ∧
    ∀ i < 2,
      (NLMS.step ⟨2, 0.1, 1e-6, 0.99999⟩ ⟨[3, 5], [7, 2], 1, 1⟩ 4 6 true).1.weights.getD i 0 =
        (0.99999 : ℚ) * ([3, 5] : List ℚ).getD i 0 +
          (0.1 : ℚ) / (((1 - 0.05) * 1 + 0.05 * ((4 : ℚ) * 4)) * (2 : ℚ) + 1e-6) *
            (NLMS.step ⟨2, 0.1, 1e-6, 0.99999⟩ ⟨[3, 5], [7, 2], 1, 1⟩ 4 6 true).2 *
            (([7, 2] : List ℚ).set 1 4).getD ((1 + 2 - i) % 2) 0) :=
  ⟨⟨by decide, by decide⟩,
    nlms_adapting_step_formulas ⟨2, 0.1, 1e-6, 0.99999⟩ ⟨[3, 5], [7, 2], 1, 1⟩
      4 6 (by decide) (by decide)⟩

/-! ## C1 and C4: weight updates and the (absent) far-end power gate,
leakage only on adapting samples -/

/-- With the adaptation flag false, a single sample step leaves the weight
vector untouched (only the delay line and the write index move). -/
lemma step_no_adapt_weights (cfg : NLMS.Config) (s : NLMS.State) (r m : ℚ) :
    (NLMS.step cfg s r m false).1.weights = s.weights := by
  simp [NLMS.step]

/-- With the adaptation flag false, a whole block leaves the weight vector
untouched. -/
lemma processGo_no_adapt_weights (cfg : NLMS.Config) :
    ∀ (rs ms : List ℚ) (s : NLMS.State),
      (NLMS.processGo cfg false s rs ms).1.weights = s.weights := by
  intro rs
  induction rs with
  | nil => intro ms s; cases ms <;> rfl
  | cons r rs ih =>
    intro ms s
    cases ms with
    | nil => rfl
    | cons m ms =>
      simp only [NLMS.processGo]
      rw [ih, step_no_adapt_weights]

/-- C1 (amended): in `NLMSProcessor.process` the weights are updated exactly
when the caller adaptation flag is true; there is no instantaneous far-end
power gate.  In particular, when the flag is false the weight vector is left
completely unchanged by the block. -/
theorem nlms_weights_unchanged_iff_not_adapt (cfg : NLMS.Config)
    (s : NLMS.State) (referenceSignal microphoneSignal : List ℚ) :
    (NLMS.process cfg s referenceSignal microphoneSignal false).1.weights =
      s.weights :=
  processGo_no_adapt_weights cfg referenceSignal microphoneSignal s

/-- C1 counterexample: with the adaptation flag true but the instantaneous
far-end power x_n[0]² = 0 ≤ 1e-6, the weight vector still changes (the
leakage factor is applied), refuting the claimed gate.  The state is reached
from the fresh filter by one adapting block with reference 1. -/
theorem nlms_power_gate_absent_counterexample :
    ((0 : ℚ) * 0 ≤ 1e-6) ∧
    (NLMS.step ⟨2, 0.1, 1e-6, 0.99999⟩
        (NLMS.process ⟨2, 0.1, 1e-6, 0.99999⟩
          (NLMS.Config.initState ⟨2, 0.1, 1e-6, 0.99999⟩) [1] [1] true).1
        0 0 true).1.weights ≠
      (NLMS.process ⟨2, 0.1, 1e-6, 0.99999⟩
        (NLMS.Config.initState ⟨2, 0.1, 1e-6, 0.99999⟩) [1] [1] true).1.weights := by
  have h1 : (NLMS.process ⟨2, 0.1, 1e-6, 0.99999⟩
      (NLMS.Config.initState ⟨2, 0.1, 1e-6, 0.99999⟩) [1] [1] true).1 =
      ⟨[1000000 / 1000029, 0], [1, 0], 1000019 / 20000000, 1⟩ := by
    norm_num [NLMS.process, NLMS.processGo, NLMS.step, NLMS.updateWeights,
      NLMS.calculateFilterOutput, NLMS.Config.initState, List.range_succ,
      List.replicate, NLMS.State.mk.injEq]
  constructor
  · norm_num
  · rw [h1]
    norm_num [NLMS.step, NLMS.updateWeights, NLMS.calculateFilterOutput,
      List.range_succ]

/-- C4 (amended): with adaptation disabled for any run of T blocks, the
weight vector is exactly unchanged, w(T) = w(0) — no leakage decay is applied
on non-adapting samples (so ‖w(T)‖ = ‖w(0)‖, not the claimed λ-decay bound). -/
theorem nlms_disabled_adaptation_weights_identical (cfg : NLMS.Config)
    (s : NLMS.State) (blocks : List (List ℚ × List ℚ)) :
    (NLMS.runBlocks cfg s blocks false).weights = s.weights := by
  induction blocks generalizing s with
  | nil => rfl
  | cons b bs ih =>
    unfold NLMS.runBlocks at *
    simp only [List.foldl_cons]
    rw [ih]
    exact processGo_no_adapt_weights cfg b.1 b.2 s

/-- C4 counterexample: after one adapting block from the fresh L = 1 filter,
one further block with adaptation disabled keeps ‖w‖ constant, violating
‖w(T)‖ ≤ ‖w(0)‖·λ^(T·N) at T = 1, N = 1 (λ = 0.99999). -/
theorem nlms_leakage_bound_counterexample :
    ¬ (Real.sqrt (l2normSq (NLMS.runBlocks ⟨1, 0.1, 1e-6, 0.99999⟩
          (NLMS.process ⟨1, 0.1, 1e-6, 0.99999⟩
            (NLMS.Config.initState ⟨1, 0.1, 1e-6, 0.99999⟩) [1] [1] true).1
          [([0], [0])] false).weights) ≤
        Real.sqrt (l2normSq (NLMS.process ⟨1, 0.1, 1e-6, 0.99999⟩
            (NLMS.Config.initState ⟨1, 0.1, 1e-6, 0.99999⟩) [1] [1] true).1.weights) *
          (0.99999 : ℝ) ^ (1 * 1)) := by
  have h1 : (NLMS.process ⟨1, 0.1, 1e-6, 0.99999⟩
      (NLMS.Config.initState ⟨1, 0.1, 1e-6, 0.99999⟩) [1] [1] true).1.weights =
      [2000000 / 1000039] := by
    norm_num [NLMS.process, NLMS.processGo, NLMS.step, NLMS.updateWeights,
      NLMS.calculateFilterOutput, NLMS.Config.initState, List.range_succ,
      List.replicate]
  have h2 : (NLMS.runBlocks ⟨1, 0.1, 1e-6, 0.99999⟩
      (NLMS.process ⟨1, 0.1, 1e-6, 0.99999⟩
        (NLMS.Config.initState ⟨1, 0.1, 1e-6, 0.99999⟩) [1] [1] true).1
      [([0], [0])] false).weights = [2000000 / 1000039] := by
    have h0 := processGo_no_adapt_weights ⟨1, 0.1, 1e-6, 0.99999⟩ [0] [0]
      (NLMS.process ⟨1, 0.1, 1e-6, 0.99999⟩
        (NLMS.Config.initState ⟨1, 0.1, 1e-6, 0.99999⟩) [1] [1] true).1
    exact h0.trans h1
  rw [h1, h2]
  have h3 : l2normSq [2000000 / 1000039] = (2000000 / 1000039 : ℚ) ^ 2 := by
    unfold l2normSq
    simp
    ring
  rw [h3]
  have h4 : ((((2000000 : ℚ) / 1000039) ^ 2 : ℚ) : ℝ) =
      ((2000000 : ℝ) / 1000039) ^ 2 := by
    push_cast
    ring
  rw [h4, Real.sqrt_sq (by norm_num)]
  norm_num

/-! ## C3: hangover countdown granularity -/

/-- C3 (evaluation at the failing input): from the Hold state with the
default hangover of 2400, nineteen consecutive block updates without
double-talk — i.e. 19·128 = 2432 > 2400 + 128 samples at the default block
size — leave the detector still in Hold, with the counter reduced only by
one per block (2400 − 19 = 2381).  The counter is a sample count per the
constructor comments, but `updateState` decrements it by 1 per block, not by
the block size. -/
theorem dtd_hangover_decrements_one_per_block :
    (DTD.iterUpdateState DTD.defaultConfig false 19
        { state := DTD.TalkState.hold, hangoverCounter := 2400,
          nearEndPower := 1, farEndPower := 1, crossPower := 1,
          nearEndBuffer := [], farEndBuffer := [], bufferIndex := 0 }).state =
      DTD.TalkState.hold ∧
    (DTD.iterUpdateState DTD.defaultConfig false 19
        { state := DTD.TalkState.hold, hangoverCounter := 2400,
          nearEndPower := 1, farEndPower := 1, crossPower := 1,
          nearEndBuffer := [], farEndBuffer := [], bufferIndex := 0 }).hangoverCounter =
      2400 - 19 := by
  constructor <;> rfl

/-! ## C5: non-finite input handling -/

/-- C5 (amended): there is no non-finite guard in the processing path: a NaN
microphone sample propagates unchanged through e_n = mic − ŷ and is emitted
as the output sample of that step (not zeroed), for every filter state,
reference sample and adaptation flag. -/
theorem nlms_nan_mic_emits_nan (cfg : NLMS.Config) (s : NLMSE.State)
    (refSample : Option ℚ) (enableAdaptation : Bool) :
    (NLMSE.step cfg s refSample none enableAdaptation).2 = none := rfl

/-- C5 counterexample: on the fresh L = 2 filter, a block whose microphone
contains a NaN (with adaptation enabled, as the detector decides it — nothing
forces it off) produces a NaN output sample instead of the claimed zero, and
the NaN reaches the filter weights. -/
theorem nlms_nonfinite_guard_absent_counterexample :
    (NLMSE.process ⟨2, 0.1, 1e-6, 0.99999⟩
        (NLMSE.initState ⟨2, 0.1, 1e-6, 0.99999⟩) [some 0] [none] true).2 ≠
      [some 0] ∧
    (NLMSE.process ⟨2, 0.1, 1e-6, 0.99999⟩
        (NLMSE.initState ⟨2, 0.1, 1e-6, 0.99999⟩) [some 0] [none] true).1.weights.getD
      0 none = none := by
  constructor <;> decide

/-! ## C7: delay-line round trip -/

namespace CB

lemma write_wf {b : CircularBuffer} (hb : WF b) (x : ℚ) : WF (write b x) := by
  obtain ⟨h1, h2, h3⟩ := hb
  refine ⟨?_, ?_, h3⟩
  · simpa [write] using h1
  · exact Nat.mod_lt _ h3

lemma writeBlock_wf {b : CircularBuffer} (hb : WF b) (samples : List ℚ) :
    WF (writeBlock b samples) := by
  induction samples generalizing b with
  | nil => exact hb
  | cons x xs ih => exact ih (write_wf hb x)

lemma writeBlock_size (b : CircularBuffer) (samples : List ℚ) :
    (writeBlock b samples).size = b.size := by
  induction samples generalizing b with
  | nil => rfl
  | cons x xs ih => exact ih (write b x)

lemma writeBlock_append (b : CircularBuffer) (xs : List ℚ) (x : ℚ) :
    writeBlock b (xs ++ [x]) = write (writeBlock b xs) x := by
  unfold writeBlock
  rw [List.foldl_append]
  rfl

/-- Reading at offset 0 right after a single write returns the written
sample: as integers, ((w+1) % s − 1 − 0) % s = w when w < s. -/
lemma read_write_zero {b : CircularBuffer} (hb : WF b) (x : ℚ) :
    read (write b x) 0 = x := by
  obtain ⟨h1, h2, h3⟩ := hb
  unfold write read
  simp only
  have hidx : ((((b.writeIndex + 1) % b.size : Nat) : Int) - 1 - ((0 : Nat) : Int)) %
      ((b.size : Nat) : Int) = (b.writeIndex : Int) := by
    rcases Nat.lt_or_ge (b.writeIndex + 1) b.size with hlt | hge
    · rw [Nat.mod_eq_of_lt hlt]
      push_cast
      rw [show ((b.writeIndex : Int) + 1 - 1 - 0) = (b.writeIndex : Int) by ring]
      exact Int.emod_eq_of_lt (by positivity) (by exact_mod_cast h2)
    · have hs : b.writeIndex + 1 = b.size := by omega
      rw [hs, Nat.mod_self]
      push_cast
      have h4 : ((-1 : Int) + ((b.size : Nat) : Int) * 1) % ((b.size : Nat) : Int) =
          (-1 : Int) % ((b.size : Nat) : Int) := by
        apply Int.add_mul_emod_self_left
      rw [← h4, Int.emod_eq_of_lt (by omega) (by omega)]
      omega
  rw [hidx]
  rw [Int.toNat_natCast]
  exact getD_set_self _ _ _ _ (by omega)

/-- A write shifts every strictly older sample one offset further back. -/
lemma read_write_succ {b : CircularBuffer} (hb : WF b) (x : ℚ) (j : Nat)
    (hj : j + 1 < b.size) :
    read (write b x) (j + 1) = read b j := by
  obtain ⟨h1, h2, h3⟩ := hb
  unfold write read
  simp only
  have hidx : ((((b.writeIndex + 1) % b.size : Nat) : Int) - 1 - ((j + 1 : Nat) : Int)) %
      ((b.size : Nat) : Int) =
      ((b.writeIndex : Int) - 1 - (j : Int)) % ((b.size : Nat) : Int) := by
    rcases Nat.lt_or_ge (b.writeIndex + 1) b.size with hlt | hge
    · rw [Nat.mod_eq_of_lt hlt]
      push_cast
      ring_nf
    · have hs : b.writeIndex + 1 = b.size := by omega
      rw [hs, Nat.mod_self]
      push_cast
      have h4 : ((-1 - ((j : Int) + 1)) + ((b.size : Nat) : Int) * 1) %
            ((b.size : Nat) : Int) =
          (-1 - ((j : Int) + 1)) % ((b.size : Nat) : Int) := by
        apply Int.add_mul_emod_self_left
      rw [← h4]
      congr 1
      omega
  rw [hidx]
  set e : Int := ((b.writeIndex : Int) - 1 - (j : Int)) % ((b.size : Nat) : Int) with he
  have he0 : 0 ≤ e := Int.emod_nonneg _ (by positivity)
  have hes : e < (b.size : Int) := Int.emod_lt_of_pos _ (by exact_mod_cast h3)
  have hne : e.toNat ≠ b.writeIndex := by
    intro hcontra
    have heq : e = (b.writeIndex : Int) := by omega
    have hdvd : ((b.size : Nat) : Int) ∣
        ((b.writeIndex : Int) - 1 - (j : Int)) - e := Int.dvd_sub_of_emod_eq rfl
    rw [heq] at hdvd
    have hneg : ((b.size : Nat) : Int) ∣ -((j : Int) + 1) := by
      convert hdvd using 1
      ring
    have hd2 : ((b.size : Nat) : Int) ∣ ((j : Int) + 1) := (dvd_neg).mp hneg
    have := Int.le_of_dvd (by positivity) hd2
    omega
  exact getD_set_ne _ _ _ _ _ (fun hh => hne hh.symm)

/-- After writing a block on top of any prior contents, offset j < N reads
the block (time-reversed) and offsets beyond it read the prior contents
shifted by N. -/
lemma read_writeBlock {b : CircularBuffer} (hb : WF b) (samples : List ℚ)
    (hlen : samples.length ≤ b.size) :
    ∀ j < b.size,
      read (writeBlock b samples) j =
        if j < samples.length then samples.getD (samples.length - 1 - j) 0
        else read b (j - samples.length) := by
  induction samples using List.reverseRecOn with
  | nil =>
    intro j hj
    simp [writeBlock]
  | append_singleton xs x ih =>
    intro j hj
    rw [writeBlock_append]
    have hxs : xs.length ≤ b.size := by
      simp at hlen
      omega
    have hwf : WF (writeBlock b xs) := writeBlock_wf hb xs
    have hsz : (writeBlock b xs).size = b.size := writeBlock_size b xs
    cases j with
    | zero =>
      rw [read_write_zero hwf]
      have hlt : 0 < (xs ++ [x]).length := by simp
      rw [if_pos hlt]
      have hn : (xs ++ [x]).length - 1 - 0 = xs.length := by simp
      rw [hn, List.getD_append_right xs [x] 0 xs.length (le_refl _),
        Nat.sub_self]
      rfl
    | succ j' =>
      have hj' : j' + 1 < (writeBlock b xs).size := by omega
      rw [read_write_succ hwf x j' hj']
      rw [ih hxs j' (by omega)]
      by_cases hcase : j' < xs.length
      · rw [if_pos hcase, if_pos (by simp; omega)]
        have hidx : (xs ++ [x]).length - 1 - (j' + 1) = xs.length - 1 - j' := by
          simp
          omega
        rw [hidx, List.getD_append xs [x] 0 _ (by omega)]
      · rw [if_neg hcase, if_neg (by simp; omega)]
        have hs2 : j' + 1 - (xs ++ [x]).length = j' - xs.length := by
          simp
        rw [hs2]

end CB

/-- C7: writing a block of N ≤ capacity samples into the delay line and then
reading a block at offset 0 returns the written samples in time-reversed
order; reading single offsets j < N returns the sample written j samples ago
(j = 0 the most recent), and offsets j ≥ N return the samples that were
written before the block, shifted by N — i.e. the sample written j samples
ago. -/
theorem delay_line_round_trip {b : CB.CircularBuffer} (hb : CB.WF b)
    (samples : List ℚ) (hlen : samples.length ≤ b.size) :
    CB.readBlock (CB.writeBlock b samples) samples.length 0 = samples.reverse ∧
    (∀ j < samples.length,
      CB.read (CB.writeBlock b samples) j =
        samples.getD (samples.length - 1 - j) 0) ∧
    (∀ j, samples.length ≤ j → j < b.size →
      CB.read (CB.writeBlock b samples) j = CB.read b (j - samples.length)) := by
  have key := CB.read_writeBlock hb samples hlen
  have part2 : ∀ j < samples.length,
      CB.read (CB.writeBlock b samples) j =
        samples.getD (samples.length - 1 - j) 0 := by
    intro j hj
    rw [key j (by omega), if_pos hj]
  refine ⟨?_, part2, ?_⟩
  · apply List.ext_getElem
    · simp [CB.readBlock]
    · intro i h1 h2
      have hi : i < samples.length := by simpa [CB.readBlock] using h1
      simp only [CB.readBlock, List.getElem_map, List.getElem_range, Nat.zero_add]
      rw [part2 i hi, List.getElem_reverse]
      rw [List.getD_eq_getElem?_getD, List.getElem?_eq_getElem (by omega)]
      rfl
  · intro j hj1 hj2
    rw [key j hj2, if_neg (by omega)]

/-- Witness for C7 on a freshly constructed buffer of capacity 4 and the
block [1, 2, 3]. -/
theorem delay_line_round_trip_witness :
    (CB.WF (CB.mkBuffer 4) ∧
      ([1, 2, 3] : List ℚ).length ≤ (CB.mkBuffer 4).size) ∧
    (CB.readBlock (CB.writeBlock (CB.mkBuffer 4) [1, 2, 3])
        ([1, 2, 3] : List ℚ).length 0 = ([1, 2, 3] : List ℚ).reverse ∧
    (∀ j < ([1, 2, 3] : List ℚ).length,
      CB.read (CB.writeBlock (CB.mkBuffer 4) [1, 2, 3]) j =
        ([1, 2, 3] : List ℚ).getD (([1, 2, 3] : List ℚ).length - 1 - j) 0) ∧
    (∀ j, ([1, 2, 3] : List ℚ).length ≤ j → j < (CB.mkBuffer 4).size →
      CB.read (CB.writeBlock (CB.mkBuffer 4) [1, 2, 3]) j =
        CB.read (CB.mkBuffer 4) (j - ([1, 2, 3] : List ℚ).length))) := by
  have hsz : (CB.mkBuffer 4).size = 4 := by
    simp [CB.mkBuffer, CB.nextPowerOfTwo, CB.nextPowerOfTwoAux]
  have hwf : CB.WF (CB.mkBuffer 4) := by
    refine ⟨?_, ?_, ?_⟩ <;>
      simp [CB.mkBuffer, CB.nextPowerOfTwo, CB.nextPowerOfTwoAux]
  have hlen : ([1, 2, 3] : List ℚ).length ≤ (CB.mkBuffer 4).size := by
    rw [hsz]
    simp
  exact ⟨⟨hwf, hlen⟩, delay_line_round_trip hwf [1, 2, 3] hlen⟩

/-! ## C6: delay estimator lag range -/

/-- Invariant of the best-lag fold: it returns the first argmax of
|correlation|/count over the scanned prefix (or the initial (0, 0) when
every value is 0). -/
lemma delayFold_invariant (mic sys : List ℚ) :
    ∀ (n : Nat), (∀ k, k < n → 0 < (RTP.corrAt mic sys k).2) →
      ∃ mc b, (List.range n).foldl (RTP.delayFoldStep mic sys) (0, 0) = (mc, b) ∧
        (∀ j, j < n → RTP.corrValue mic sys j ≤ |mc|) ∧
        (∀ j, j < b → RTP.corrValue mic sys j < |mc|) ∧
        ((mc = 0 ∧ b = 0) ∨ (b < n ∧ |mc| = RTP.corrValue mic sys b)) := by
  intro n
  induction n with
  | zero =>
    intro
    exact ⟨0, 0, rfl, by omega, by omega, Or.inl ⟨rfl, rfl⟩⟩
  | succ n ih =>
    intro hP
    obtain ⟨mc, b, hfold, hA, hB, hC⟩ := ih (fun k hk => hP k (by omega))
    rw [List.range_succ, List.foldl_append, hfold, List.foldl_cons, List.foldl_nil]
    rw [RTP.delayFoldStep]
    simp only
    rw [if_pos (hP n (by omega))]
    by_cases hgt :
        |(RTP.corrAt mic sys n).1 / (((RTP.corrAt mic sys n).2 : Nat) : ℚ)| > |mc|
    · rw [if_pos hgt]
      have hval : RTP.corrValue mic sys n =
          |(RTP.corrAt mic sys n).1 / (((RTP.corrAt mic sys n).2 : Nat) : ℚ)| := rfl
      refine ⟨_, n, rfl, ?_, ?_, Or.inr ⟨by omega, hval.symm⟩⟩
      · intro j hj
        rcases Nat.lt_or_ge j n with hjn | hjn
        · exact le_of_lt (lt_of_le_of_lt (hA j hjn) hgt)
        · have : j = n := by omega
          rw [this, hval]
      · intro j hj
        exact lt_of_le_of_lt (hA j hj) hgt
    · rw [if_neg hgt]
      refine ⟨mc, b, rfl, ?_, hB, ?_⟩
      · intro j hj
        rcases Nat.lt_or_ge j n with hjn | hjn
        · exact hA j hjn
        · have : j = n := by omega
          rw [this]
          exact le_of_not_lt hgt
      · rcases hC with h | ⟨hb, hmc⟩
        · exact Or.inl h
        · exact Or.inr ⟨by omega, hmc⟩

/-- C6 (amended): for equal-length blocks of at least 2 samples, the delay
estimator searches only the truncated lag range [0, min(480, ⌊N/2⌋)) — not
the full [0, 480] of the claim — picking the first lag maximizing
|r(k)|/count(k) there, and then applies the EMA d̂ ← 0.9·d̂ + 0.1·k* and
exposes round(d̂). -/
theorem delay_estimator_truncated_argmax (mic sys : List ℚ) (est : ℚ)
    (hlen : sys.length = mic.length) (h2 : 2 ≤ mic.length) :
    ∃ k, RTP.IsFirstArgmaxCorr mic sys (min 480 (mic.length / 2)) k ∧
      RTP.estimateDelay mic sys est =
        (est * (1 - 0.1) + (k : ℚ) * 0.1,
         round (est * (1 - 0.1) + (k : ℚ) * 0.1)) := by
  have hn : 0 < min 480 (mic.length / 2) := by
    have : 1 ≤ mic.length / 2 := Nat.one_le_div_iff (by omega) |>.mpr h2
    omega
  have hP : ∀ k, k < min 480 (mic.length / 2) → 0 < (RTP.corrAt mic sys k).2 := by
    intro k hk
    have hkl : k < mic.length := by
      have : mic.length / 2 ≤ mic.length := Nat.div_le_self _ _
      omega
    show 0 < min mic.length (sys.length + k) - k
    rw [hlen]
    omega
  obtain ⟨mc, b, hfold, hA, hB, hC⟩ :=
    delayFold_invariant mic sys (min 480 (mic.length / 2)) hP
  have hout : RTP.estimateDelay mic sys est =
      (est * (1 - 0.1) + (b : ℚ) * 0.1,
       round (est * (1 - 0.1) + (b : ℚ) * 0.1)) := by
    simp only [RTP.estimateDelay]
    rw [hfold]
  rcases hC with ⟨hmc, hb⟩ | ⟨hb, hmc⟩
  · refine ⟨0, ⟨hn, ?_, by omega⟩, ?_⟩
    · intro j hj
      have h1 := hA j hj
      have h2 := hA 0 hn
      rw [hmc, abs_zero] at h1 h2
      have h4 : 0 ≤ RTP.corrValue mic sys 0 := by
        unfold RTP.corrValue
        exact abs_nonneg _
      linarith
    · rw [hout, hb]
  · refine ⟨b, ⟨hb, ?_, ?_⟩, hout⟩
    · intro j hj
      rw [← hmc]
      exact hA j hj
    · intro j hj
      rw [← hmc]
      exact hB j hj

/-- Witness for C6 (amended) on a concrete pair of equal-length blocks. -/
theorem delay_estimator_truncated_argmax_witness :
    (([5, 6] : List ℚ).length = ([1, 2] : List ℚ).length ∧
      2 ≤ ([1, 2] : List ℚ).length) ∧
    (∃ k, RTP.IsFirstArgmaxCorr [1, 2] [5, 6]
        (min 480 (([1, 2] : List ℚ).length / 2)) k ∧
      RTP.estimateDelay [1, 2] [5, 6] 0 =
        ((0 : ℚ) * (1 - 0.1) + (k : ℚ) * 0.1,
         round ((0 : ℚ) * (1 - 0.1) + (k : ℚ) * 0.1))) :=
  ⟨⟨by decide, by decide⟩,
    delay_estimator_truncated_argmax [1, 2] [5, 6] 0 (by decide) (by decide)⟩

/-- A fold that only replaces its accumulator on a strictly larger value is
unchanged over a segment in which no value exceeds it. -/
lemma specFold_no_update (mic sys : List ℚ) :
    ∀ (l : List Nat) (acc : ℚ × Nat),
      (∀ k ∈ l, ¬ (RTP.specCorrValue mic sys k > acc.1)) →
      l.foldl (fun acc k => if RTP.specCorrValue mic sys k > acc.1
          then (RTP.specCorrValue mic sys k, k) else acc) acc = acc := by
  intro l
  induction l with
  | nil =>
    intro acc _
    rfl
  | cons k ks ih =>
    intro acc h
    rw [List.foldl_cons, if_neg (h k (List.mem_cons_self k ks))]
    exact ih acc (fun j hj => h j (List.mem_cons_of_mem k hj))

/-- Beyond the block length the spec ranking value degenerates to 0 (empty
sum over count 0). -/
lemma specCorrValue_zero_of_len_le (mic sys : List ℚ) (k : Nat)
    (h : mic.length ≤ k) : RTP.specCorrValue mic sys k = 0 := by
  unfold RTP.specCorrValue
  rw [Nat.sub_eq_zero_of_le h]
  simp

/-- C6 counterexample: with mic = δ shifted to index 5 and ref = δ at index
0 (blocks of 8 samples, smoothed estimate 0), the true cross-correlation
peak is at lag 5, inside the claimed range [0, 480]; the spec formula
exposes round(0.9·0 + 0.1·5) = 1, but the code searches only
[0, min(480, ⌊8/2⌋)) = [0, 4) and exposes 0. -/
theorem delay_estimator_full_range_counterexample :
    (RTP.estimateDelay [0, 0, 0, 0, 0, 1, 0, 0] [1, 0, 0, 0, 0, 0, 0, 0] 0).2 = 0 ∧
    RTP.specDelayEstimate [0, 0, 0, 0, 0, 1, 0, 0] [1, 0, 0, 0, 0, 0, 0, 0] 0 = 1 := by
  constructor
  · norm_num [RTP.estimateDelay, RTP.delayFoldStep, RTP.corrAt, List.range_succ]
  · have hv : ∀ k, 5 < k → ¬ (RTP.specCorrValue [0, 0, 0, 0, 0, 1, 0, 0]
        [1, 0, 0, 0, 0, 0, 0, 0] k > (1 / 3 : ℚ)) := by
      intro k hk
      rcases Nat.lt_or_ge k 8 with hk8 | hk8
      · interval_cases k <;>
          norm_num [RTP.specCorrValue, List.range_succ]
      · rw [specCorrValue_zero_of_len_le _ _ k (by simpa using hk8)]
        norm_num
    simp only [RTP.specDelayEstimate]
    rw [show List.range 481 = List.range' 0 6 ++ List.range' 6 475 by
      rw [List.range_eq_range', ← List.range'_append 0 6 475 1]]
    rw [List.foldl_append]
    rw [show List.range' 0 6 = [0, 1, 2, 3, 4, 5] from rfl]
    have hv0 : RTP.specCorrValue [0, 0, 0, 0, 0, 1, 0, 0]
        [1, 0, 0, 0, 0, 0, 0, 0] 0 = 0 := by
      norm_num [RTP.specCorrValue, List.range_succ]
    have hv1 : RTP.specCorrValue [0, 0, 0, 0, 0, 1, 0, 0]
        [1, 0, 0, 0, 0, 0, 0, 0] 1 = 0 := by
      norm_num [RTP.specCorrValue, List.range_succ]
    have hv2 : RTP.specCorrValue [0, 0, 0, 0, 0, 1, 0, 0]
        [1, 0, 0, 0, 0, 0, 0, 0] 2 = 0 := by
      norm_num [RTP.specCorrValue, List.range_succ]
    have hv3 : RTP.specCorrValue [0, 0, 0, 0, 0, 1, 0, 0]
        [1, 0, 0, 0, 0, 0, 0, 0] 3 = 0 := by
      norm_num [RTP.specCorrValue, List.range_succ]
    have hv4 : RTP.specCorrValue [0, 0, 0, 0, 0, 1, 0, 0]
        [1, 0, 0, 0, 0, 0, 0, 0] 4 = 0 := by
      norm_num [RTP.specCorrValue, List.range_succ]
    have hv5 : RTP.specCorrValue [0, 0, 0, 0, 0, 1, 0, 0]
        [1, 0, 0, 0, 0, 0, 0, 0] 5 = 1 / 3 := by
      norm_num [RTP.specCorrValue, List.range_succ]
    simp only [List.foldl_cons, List.foldl_nil, hv0, hv1, hv2, hv3, hv4, hv5]
    norm_num
    rw [specFold_no_update _ _ _ _ ?_]
    · norm_num [round_eq]
    · intro k hk
      have h6 : 6 ≤ k := by
        rcases List.mem_range'.mp hk with ⟨i, _, rfl⟩
        omega
      exact hv k (by omega)

/-! ## C8: all-zero blocks -/

lemma getD_replicate_zero (n i : Nat) :
    (List.replicate n (0 : ℚ)).getD i 0 = 0 := by
  rw [List.getD_eq_getElem?_getD, List.getElem?_replicate]
  split <;> rfl

/-- A zero weight vector gives filter output 0 whatever the delay line
holds. -/
lemma calculateFilterOutput_zero (cfg : NLMS.Config) (s : NLMS.State)
    (hw : s.weights = List.replicate cfg.filterLength 0) :
    NLMS.calculateFilterOutput cfg s = 0 := by
  unfold NLMS.calculateFilterOutput
  rw [foldl_range_add_sum, zero_add]
  apply Finset.sum_eq_zero
  intro i _
  rw [hw, getD_replicate_zero, zero_mul]

/-- Updating a zero weight vector with error 0 keeps it zero. -/
lemma updateWeights_zero (cfg : NLMS.Config) (s : NLMS.State)
    (hw : s.weights = List.replicate cfg.filterLength 0) :
    (NLMS.updateWeights cfg s 0).weights = List.replicate cfg.filterLength 0 := by
  simp only [NLMS.updateWeights]
  apply List.eq_replicate_iff.mpr
  refine ⟨by simp, ?_⟩
  intro b hb
  obtain ⟨i, _, hib⟩ := List.mem_map.mp hb
  rw [← hib, hw, getD_replicate_zero]
  ring

/-- A zero-weight step on zero input emits 0 and keeps the weights zero. -/
lemma step_zero (cfg : NLMS.Config) (s : NLMS.State) (adapt : Bool)
    (hw : s.weights = List.replicate cfg.filterLength 0) :
    (NLMS.step cfg s 0 0 adapt).1.weights = List.replicate cfg.filterLength 0 ∧
    (NLMS.step cfg s 0 0 adapt).2 = 0 := by
  have hcalc : NLMS.calculateFilterOutput cfg
      { s with delayLine := s.delayLine.set s.writeIndex 0 } = 0 :=
    calculateFilterOutput_zero _ _ hw
  simp only [NLMS.step, hcalc, sub_zero]
  cases adapt with
  | false => exact ⟨hw, trivial⟩
  | true => exact ⟨updateWeights_zero cfg _ hw, trivial⟩

/-- Zero-weight block processing of all-zero blocks: zero output, weights
stay the zero vector. -/
lemma processGo_zero (cfg : NLMS.Config) (adapt : Bool) :
    ∀ (n : Nat) (s : NLMS.State),
      s.weights = List.replicate cfg.filterLength 0 →
      (NLMS.processGo cfg adapt s (List.replicate n 0)
          (List.replicate n 0)).1.weights = List.replicate cfg.filterLength 0 ∧
      (NLMS.processGo cfg adapt s (List.replicate n 0)
          (List.replicate n 0)).2 = List.replicate n 0 := by
  intro n
  induction n with
  | zero =>
    intro s hw
    exact ⟨hw, rfl⟩
  | succ n ih =>
    intro s hw
    rw [List.replicate_succ]
    simp only [NLMS.processGo]
    obtain ⟨hstw, hste⟩ := step_zero cfg s adapt hw
    obtain ⟨ihw, ihe⟩ := ih (NLMS.step cfg s 0 0 adapt).1 hstw
    refine ⟨ihw, ?_⟩
    rw [hste, ihe, ← List.replicate_succ]

/-- C8 (amended): for every processor state whose NLMS weight vector is the
zero vector (in particular the freshly initialized system), processing an
all-zero mic and ref block returns an all-zero block and leaves the weight
vector unchanged.  (For general states the property fails: with nonzero
weights and reference history, zero input rings out a nonzero echo estimate.) -/
theorem processBlock_zero_in_zero_out (ncfg : NLMS.Config) (dcfg : DTD.Config)
    (s : ECS.State) (n : Nat)
    (hw : s.nlms.weights = List.replicate ncfg.filterLength 0) :
    (ECS.processBlock ncfg dcfg s (List.replicate n 0)
        (List.replicate n 0)).2 = List.replicate n 0 ∧
    (ECS.processBlock ncfg dcfg s (List.replicate n 0)
        (List.replicate n 0)).1.nlms.weights = s.nlms.weights := by
  obtain ⟨hwts, hout⟩ := processGo_zero ncfg
    (DTD.process dcfg s.dtd (List.replicate n 0) (List.replicate n 0)).2 n
    s.nlms hw
  constructor
  · exact hout
  · rw [hw]
    exact hwts

/-- Witness for C8 (amended) on the freshly initialized system (L = 2,
window 2) and a one-sample zero block. -/
theorem processBlock_zero_in_zero_out_witness :
    ((NLMS.Config.initState ⟨2, 0.1, 1e-6, 0.99999⟩).weights =
      List.replicate (⟨2, 0.1, 1e-6, 0.99999⟩ : NLMS.Config).filterLength 0) ∧
    ((ECS.processBlock ⟨2, 0.1, 1e-6, 0.99999⟩ ⟨2, 0.6, 2400, 2⟩
        ⟨NLMS.Config.initState ⟨2, 0.1, 1e-6, 0.99999⟩,
         DTD.Config.initState ⟨2, 0.6, 2400, 2⟩⟩
        (List.replicate 1 0) (List.replicate 1 0)).2 = List.replicate 1 0 ∧
    (ECS.processBlock ⟨2, 0.1, 1e-6, 0.99999⟩ ⟨2, 0.6, 2400, 2⟩
        ⟨NLMS.Config.initState ⟨2, 0.1, 1e-6, 0.99999⟩,
         DTD.Config.initState ⟨2, 0.6, 2400, 2⟩⟩
        (List.replicate 1 0) (List.replicate 1 0)).1.nlms.weights =
      (NLMS.Config.initState ⟨2, 0.1, 1e-6, 0.99999⟩).weights) :=
  ⟨rfl, processBlock_zero_in_zero_out ⟨2, 0.1, 1e-6, 0.99999⟩ ⟨2, 0.6, 2400, 2⟩
    ⟨NLMS.Config.initState ⟨2, 0.1, 1e-6, 0.99999⟩,
     DTD.Config.initState ⟨2, 0.6, 2400, 2⟩⟩ 1 rfl⟩

/-- C8 counterexample: from the freshly initialized system (L = 4, DTD
window 2), one block with mic = ref = [1, 1/2] adapts the filter (the DTD
reports single-talk); the following all-zero block then produces a nonzero
first output sample — the adapted weights ring against the reference history
still in the delay line — refuting the claim for general processor states. -/
theorem processBlock_zero_state_counterexample :
    ((ECS.processBlock ⟨4, 0.1, 1e-6, 0.99999⟩ ⟨2, 0.6, 2400, 2⟩
        (ECS.processBlock ⟨4, 0.1, 1e-6, 0.99999⟩ ⟨2, 0.6, 2400, 2⟩
          ⟨NLMS.Config.initState ⟨4, 0.1, 1e-6, 0.99999⟩,
           DTD.Config.initState ⟨2, 0.6, 2400, 2⟩⟩
          [1, 1/2] [1, 1/2]).1
        [0, 0] [0, 0]).2).getD 0 0 ≠ 0 := by
  have hsqrt : Rat.sqrt ((1 : ℚ) / 256) = 1 / 16 := by
    rw [show ((1 : ℚ) / 256) = (1 / 16) * (1 / 16) by norm_num, Rat.sqrt_eq]
    norm_num
  have hsqrt0 : Rat.sqrt (0 : ℚ) = 0 := by
    rw [show (0 : ℚ) = 0 * 0 from (mul_zero 0).symm, Rat.sqrt_eq, abs_zero]
    exact (mul_zero 0).symm
  have hd1 : DTD.process ⟨2, 0.6, 2400, 2⟩
      (DTD.Config.initState ⟨2, 0.6, 2400, 2⟩) [1, 1/2] [1, 1/2] =
      (⟨DTD.TalkState.single_talk, 0, 6250000019 / 200000000000,
        6250000019 / 200000000000, 6250000019 / 200000000000,
        [1, 1/2], [1, 1/2], 0⟩, true) := by
    norm_num [DTD.process, DTD.updatePowerEstimates,
      DTD.updateCorrelationBuffers, DTD.calculateCorrelation,
      DTD.detectDoubleTalk, DTD.updateState, DTD.Config.initState,
      List.range_succ, List.replicate, hsqrt, DTD.State.mk.injEq,
      decide_eq_true_eq, Bool.and_eq_true]
    exact ⟨by decide, by decide⟩
  have hn1 : NLMS.process ⟨4, 0.1, 1e-6, 0.99999⟩
      (NLMS.Config.initState ⟨4, 0.1, 1e-6, 0.99999⟩) [1, 1/2] [1, 1/2] true =
      (⟨[13250170497695 / 24001037011064, 312515000000 / 3000129626383, 0, 0],
        [1, 1/2, 0, 0], 24000361 / 400000000, 2⟩,
       [1, 62503 / 250006]) := by
    norm_num [NLMS.process, NLMS.processGo, NLMS.step, NLMS.updateWeights,
      NLMS.calculateFilterOutput, NLMS.Config.initState, List.range_succ,
      List.replicate, NLMS.State.mk.injEq]
  have hblock1 : (ECS.processBlock ⟨4, 0.1, 1e-6, 0.99999⟩ ⟨2, 0.6, 2400, 2⟩
      ⟨NLMS.Config.initState ⟨4, 0.1, 1e-6, 0.99999⟩,
       DTD.Config.initState ⟨2, 0.6, 2400, 2⟩⟩ [1, 1/2] [1, 1/2]).1 =
      ⟨⟨[13250170497695 / 24001037011064, 312515000000 / 3000129626383, 0, 0],
        [1, 1/2, 0, 0], 24000361 / 400000000, 2⟩,
       ⟨DTD.TalkState.single_talk, 0, 6250000019 / 200000000000,
        6250000019 / 200000000000, 6250000019 / 200000000000,
        [1, 1/2], [1, 1/2], 0⟩⟩ := by
    simp only [ECS.processBlock, hd1, hn1]
  rw [hblock1]
  have hd2 : DTD.process ⟨2, 0.6, 2400, 2⟩
      ⟨DTD.TalkState.single_talk, 0, 6250000019 / 200000000000,
        6250000019 / 200000000000, 6250000019 / 200000000000,
        [1, 1/2], [1, 1/2], 0⟩ [0, 0] [0, 0] =
      (⟨DTD.TalkState.double_talk, 2400, 118750000361 / 4000000000000,
        118750000361 / 4000000000000, 118750000361 / 4000000000000,
        [0, 0], [0, 0], 0⟩, false) := by
    norm_num [DTD.process, DTD.updatePowerEstimates,
      DTD.updateCorrelationBuffers, DTD.calculateCorrelation,
      DTD.detectDoubleTalk, DTD.updateState,
      List.range_succ, hsqrt0, DTD.State.mk.injEq,
      decide_eq_true_eq, Bool.and_eq_true]
  simp only [ECS.processBlock, hd2]
  norm_num [NLMS.process, NLMS.processGo, NLMS.step,
    NLMS.calculateFilterOutput, List.range_succ]

end AEC
